import Mathlib

/-!
Shallow embedding of the XAUCopilot price-indicator tool and news tool
(`xaucopilot.py`, classes `XAUPriceFetchTool` and `NewsSearchTool`).

Modelling conventions:
* Prices are exact rationals (`ℚ`); the Python code computes with IEEE floats,
  but every formula here is a handful of field operations, so the rational
  model is the intended real-number semantics of those formulas.  The two
  places where float special values matter are modelled explicitly: an
  undefined (NaN) entry of a pandas Series is an `Option.none`, and the
  division `gain / loss` at `loss = 0` follows IEEE semantics
  (`gain > 0 → +inf`, hence RSI `= 100`; `gain = 0 → NaN`, hence RSI absent).
* A raw hourly bar carries `Option` fields because pandas aggregation
  (`first`/`max`/`min`/`last`) skips missing values; `dropna` after the
  4-hour resample is the `filterMap` below.
* Timestamps are whole hours since the epoch, so the pandas rule
  `resample('4h')` buckets a bar by `ts / 4`.  The market-data provider
  returns bars with ascending timestamps, so bucketing groups maximal runs
  of equal `ts / 4`.
* The external providers (yfinance, DDGS) are parameters: a function the
  tool calls with its fixed arguments, returning either data (`Except.ok`)
  or a raised exception carrying its message (`Except.error`).  The `try`/
  `except` wrapper of each `_run` is the `match` on that result.
-/

/-- A raw OHLC bar at hourly granularity, as returned by
`yf.Ticker(...).history(period="1mo", interval="1h")`.  A `none` field is a
missing (NaN) value in the corresponding pandas column. -/
structure Bar where
  ts : Nat
  Open : Option ℚ
  High : Option ℚ
  Low : Option ℚ
  Close : Option ℚ
  deriving DecidableEq

/-- A resampled 4-hour bar after `resample('4h').agg(...).dropna()`: all four
fields present. -/
structure RBar where
  Open : ℚ
  High : ℚ
  Low : ℚ
  Close : ℚ
  deriving DecidableEq

/-- Group a timestamp-ascending bar list into maximal runs of equal 4-hour
bucket `ts / 4`; these are exactly the non-empty groups of
`history.resample('4h')`. -/
def groupRuns : List Bar → List (List Bar)
  | [] => []
  | b :: bs =>
    match groupRuns bs with
    | [] => [[b]]
    | [] :: gs => [b] :: gs
    | (b2 :: g) :: gs =>
      if b.ts / 4 = b2.ts / 4 then (b :: b2 :: g) :: gs
      else [b] :: (b2 :: g) :: gs

/-- Aggregate one 4-hour group with
`{'Open': 'first', 'High': 'max', 'Low': 'min', 'Close': 'last'}`; the pandas
aggregators skip missing values, and a window where some column has no value
at all aggregates to `none` (then dropped by `dropna`). -/
def aggGroup (g : List Bar) : Option RBar :=
  match (g.filterMap Bar.Open).head?, (g.filterMap Bar.High).max?,
        (g.filterMap Bar.Low).min?, (g.filterMap Bar.Close).getLast? with
  | some o, some h, some l, some c => some ⟨o, h, l, c⟩
  | _, _, _, _ => none

/-- `history.resample('4h').agg(ohlc_dict).dropna()`. -/
def resample4h (bars : List Bar) : List RBar :=
  (groupRuns bars).filterMap aggGroup

/-- `Series.diff()`: per-step delta, undefined at index 0. -/
def diff (xs : List ℚ) : List (Option ℚ) :=
  (List.range xs.length).map fun j =>
    if j = 0 then none else some (xs.getD j 0 - xs.getD (j - 1) 0)

/-- `delta.where(delta > 0, 0)`: keep positive deltas, replace everything
else — including the undefined first delta, whose comparison is false — by 0. -/
def wherePos : Option ℚ → ℚ
  | some d => if 0 < d then d else 0
  | none => 0

/-- `-delta.where(delta < 0, 0)`: magnitude of negative deltas, 0 elsewhere
(again including the undefined first delta). -/
def whereNeg : Option ℚ → ℚ
  | some d => if d < 0 then -d else 0
  | none => 0

/-- The gain input series of the RSI computation. -/
def seriesGain (close : List ℚ) : List ℚ := (diff close).map wherePos

/-- The loss input series of the RSI computation. -/
def seriesLoss (close : List ℚ) : List ℚ := (diff close).map whereNeg

/-- `Series.rolling(window=w).mean()` with the default
`min_periods = window`: defined at index `i` iff `w ≤ i + 1`, where it is the
arithmetic mean of the trailing `w` entries. -/
def rollingMean (w : Nat) (xs : List ℚ) : List (Option ℚ) :=
  (List.range xs.length).map fun i =>
    if w ≤ i + 1 then
      some ((((List.range w).map fun k => xs.getD (i - k) 0).sum) / w)
    else none

/-- Trailing 14-period average gain at index `i` (`none` during warm-up). -/
def gainAvgAt (close : List ℚ) (i : Nat) : Option ℚ :=
  (rollingMean 14 (seriesGain close)).getD i none

/-- Trailing 14-period average loss at index `i` (`none` during warm-up). -/
def lossAvgAt (close : List ℚ) (i : Nat) : Option ℚ :=
  (rollingMean 14 (seriesLoss close)).getD i none

/-- The RSI column `100 - (100 / (1 + gain/loss))`, entrywise.  A warm-up
entry of either rolling mean gives an undefined entry.  At `loss = 0` the
float division yields `+inf` when `gain > 0` (so RSI `= 100`) and NaN when
`gain = 0` (so the entry is undefined). -/
def rsiList (close : List ℚ) : List (Option ℚ) :=
  (List.range close.length).map fun i =>
    match gainAvgAt close i, lossAvgAt close i with
    | some g, some l =>
      if l = 0 then (if g = 0 then none else some 100)
      else some (100 - 100 / (1 + g / l))
    | _, _ => none

/-- Smoothing factor of `ewm(span=50, ...)`: `2 / (50 + 1)`. -/
def emaAlpha : ℚ := 2 / (50 + 1)

/-- Tail of the recursive `ewm(adjust=False)` scan seeded with `prev`. -/
def ewmGo (a prev : ℚ) : List ℚ → List ℚ
  | [] => []
  | y :: ys => (a * y + (1 - a) * prev) :: ewmGo a (a * y + (1 - a) * prev) ys

/-- `Series.ewm(span, adjust=False).mean()`: seeded by the first value, then
`y_i = a * x_i + (1 - a) * y_(i-1)`. -/
def ewmAdjFalse (a : ℚ) : List ℚ → List ℚ
  | [] => []
  | x :: rest => x :: ewmGo a x rest

/-- `.round(2)` on one value: scale by 100, round to the nearest integer,
scale back.  (The float implementation breaks exact two-decimal ties to the
even neighbour; ties aside, this is the same function.) -/
def round2 (q : ℚ) : ℚ := ((round (q * 100) : ℤ) : ℚ) / 100

/-- One row of `final_df = data_4h[['Close', 'RSI', 'EMA_50']]`; `RSI` is
`none` where the RSI column is undefined (NaN). -/
structure OutRow where
  Close : ℚ
  RSI : Option ℚ
  EMA_50 : ℚ
  deriving DecidableEq

/-- The three-column frame before `tail(12).round(2)`. -/
def outRows (close : List ℚ) : List OutRow :=
  (List.range close.length).map fun i =>
    { Close := close.getD i 0
      RSI := (rsiList close).getD i none
      EMA_50 := (ewmAdjFalse emaAlpha close).getD i 0 }

/-- `.round(2)` applied to one output row (NaN stays NaN). -/
def roundRow (r : OutRow) : OutRow :=
  { Close := round2 r.Close, RSI := r.RSI.map round2, EMA_50 := round2 r.EMA_50 }

/-- The rows of `final_df = data_4h[['Close','RSI','EMA_50']].tail(12).round(2)`
for a fetched history. -/
def indicatorRows (history : List Bar) : List OutRow :=
  let rows := outRows ((resample4h history).map RBar.Close)
  (rows.drop (rows.length - 12)).map roundRow

/-- Result of `XAUPriceFetchTool._run`: either an error string returned as
data, or the successful table (whose rendering via `to_string()` we keep
structured). -/
inductive ToolOutput where
  | err : String → ToolOutput
  | table : List OutRow → ToolOutput
  deriving DecidableEq

/-- The hard-coded instrument symbol `ticker = "GC=F"`. -/
def ticker : String := "GC=F"

/-- The hard-coded lookback period of the `history` call. -/
def fetchPeriod : String := "1mo"

/-- The hard-coded base bar interval of the `history` call. -/
def fetchInterval : String := "1h"

/-- `XAUPriceFetchTool._run(query)`.  The provider stands for
`yf.Ticker(t).history(period=p, interval=i)`: the tool calls it at its three
fixed constants (the query is never consulted), `Except.error e` is a raised
exception with message `e` caught by the `except` clause, and an empty
history returns the literal error string before any computation. -/
def XAUPriceFetchTool_run
    (provider : String → String → String → Except String (List Bar))
    (query : String) : ToolOutput :=
  match provider ticker fetchPeriod fetchInterval with
  | .error e => .err ("Error processing data: " ++ e)
  | .ok history =>
    if history.isEmpty then .err "Error: Could not fetch data."
    else .table (indicatorRows history)

/-- One DDGS search result; a `none` field is a key absent from the result
dict, defaulted by `r.get(...)`. -/
structure SearchResult where
  title : Option String
  body : Option String
  date : Option String
  deriving DecidableEq

/-- The record formatting of one search result inside the loop of
`NewsSearchTool._run`. -/
def formatResult (r : SearchResult) : String :=
  "NEWS TITLE: " ++ r.title.getD "No Title" ++ "\nDATE: " ++
    r.date.getD "Unknown Date" ++ "\nSNIPPET: " ++ r.body.getD "No snippet" ++
    "\n---"

/-- `NewsSearchTool._run(query)`.  The search function stands for
`ddgs.text(query, max_results=3, timelimit='d')` (already truncated to at
most 3 results by the provider); `Except.error e` is a raised exception with
message `e` caught by the `except` clause. -/
def NewsSearchTool_run (query : String)
    (searchF : String → Except String (List SearchResult)) : String :=
  match searchF query with
  | .error e => "Search Error: " ++ e
  | .ok results =>
    if (results.map formatResult).isEmpty then
      "No news found in the last 24 hours. Assume Neutral."
    else String.intercalate "\n" (results.map formatResult)

/-- Character-list substring test (used to state what a returned string
contains). -/
def charsContain (pat : List Char) : List Char → Bool
  | [] => pat.isEmpty
  | c :: rest => pat.isPrefixOf (c :: rest) || charsContain pat rest

/-- `pat` occurs as a contiguous substring of `s`. -/
def strContains (s pat : String) : Bool := charsContain pat.data s.data

/-- `b * 100` is an integer, i.e. `b` has at most two decimal places. -/
def isRounded2 (q : ℚ) : Bool := (q * 100).den == 1

/-- All numeric fields of a row have at most two decimal places. -/
def rowRounded (r : OutRow) : Bool :=
  isRounded2 r.Close && isRounded2 r.EMA_50 &&
    (match r.RSI with | none => true | some x => isRounded2 x)

/-- Reference per-step delta of the spec formula: `close_j - close_(j-1)`. -/
def refDelta (close : List ℚ) (j : Nat) : ℚ :=
  close.getD j 0 - close.getD (j - 1) 0

/-- Reference trailing average gain of the spec formula: arithmetic mean of
the positive per-step deltas (negatives as 0) over the trailing 14-period
window ending at `i`. -/
def refGain (close : List ℚ) (i : Nat) : ℚ :=
  (((List.range 14).map fun k => max (refDelta close (i - k)) 0).sum) / 14

/-- Reference trailing average loss of the spec formula: arithmetic mean of
the magnitudes of the negative per-step deltas (positives as 0) over the same
window. -/
def refLoss (close : List ℚ) (i : Nat) : ℚ :=
  (((List.range 14).map fun k => max (-refDelta close (i - k)) 0).sum) / 14

/-- Reference RSI of the spec formula: `RS = gain/loss`,
`RSI = 100 - 100/(1+RS)`. -/
def refRSI (close : List ℚ) (i : Nat) : ℚ :=
  100 - 100 / (1 + refGain close i / refLoss close i)

/-- The EMA recurrence exactly as the spec words it: smoothing factor
`α = 2/(50+1)`, seeded by the first available close, no bias adjustment. -/
def emaSpecRec (close : List ℚ) : Nat → ℚ
  | 0 => close.getD 0 0
  | i + 1 => emaAlpha * close.getD (i + 1) 0 + (1 - emaAlpha) * emaSpecRec close i

/-- Concrete close series alternating 0 and 1 (15 entries): at index 14 the
trailing window has average gain and loss both `1/2`. -/
def cWave : List ℚ := [0, 1, 0, 1, 0, 1, 0, 1, 0, 1, 0, 1, 0, 1, 0]

/-- Concrete strictly increasing close series (15 entries). -/
def cInc : List ℚ := [1, 2, 3, 4, 5, 6, 7, 8, 9, 10, 11, 12, 13, 14, 15]

/-- Concrete one-bar history: a single complete hourly bar. -/
def history1 : List Bar :=
  [{ ts := 0, Open := some 1, High := some 1, Low := some 1, Close := some 1 }]

/-- Concrete 25-bar history, one bar per 4-hour bucket, strictly increasing
complete prices: 25 resampled rows, so the last 12 are past RSI warm-up. -/
def history25 : List Bar :=
  (List.range 25).map fun k =>
    { ts := 4 * k, Open := some ((k : ℚ) + 1), High := some ((k : ℚ) + 1),
      Low := some ((k : ℚ) + 1), Close := some ((k : ℚ) + 1) }

/-- First bar of the concrete two-bar window. -/
def bar1 : Bar := { ts := 0, Open := some 10, High := some 12, Low := some 9, Close := some 11 }

/-- Second bar of the concrete two-bar window. -/
def bar2 : Bar := { ts := 1, Open := some 11, High := some 15, Low := some 8, Close := some 14 }

/-- Concrete two-bar history in a single 4-hour bucket. -/
def bars2 : List Bar := [bar1, bar2]

/-- Expected aggregation of `bars2`: first open, max high, min low, last close. -/
def rbar2 : RBar := { Open := 10, High := 15, Low := 8, Close := 14 }

/-- A provider that always answers with the one-bar history. -/
def provider1 : String → String → String → Except String (List Bar) :=
  fun _ _ _ => .ok history1

/-- A provider that answers with zero bars. -/
def providerEmpty : String → String → String → Except String (List Bar) :=
  fun _ _ _ => .ok []

/-- A provider whose call raises an exception. -/
def providerRaise : String → String → String → Except String (List Bar) :=
  fun _ _ _ => .error "boom"

/-- A search call that returns zero results. -/
def searchEmpty : String → Except String (List SearchResult) :=
  fun _ => .ok []

/-- A search call that raises an exception. -/
def searchRaise : String → Except String (List SearchResult) :=
  fun _ => .error "net down"

theorem getD_map_range {α : Type} (n i : Nat) (f : Nat → α) (d : α) (h : i < n) :
    ((List.range n).map f).getD i d = f i := by
  rw [List.getD_eq_getElem?_getD, List.getElem?_map, List.getElem?_range h]
  rfl

theorem ewmGo_getD_zero (a p : ℚ) (l : List ℚ) (h : l ≠ []) :
    (ewmGo a p l).getD 0 0 = a * l.getD 0 0 + (1 - a) * p := by
  cases l with
  | nil => exact absurd rfl h
  | cons y ys => simp [ewmGo]

theorem ewmGo_getD_succ (a : ℚ) (l : List ℚ) :
    ∀ (p : ℚ) (i : Nat), i + 1 < l.length →
      (ewmGo a p l).getD (i + 1) 0 =
        a * l.getD (i + 1) 0 + (1 - a) * (ewmGo a p l).getD i 0 := by
  induction l with
  | nil => intro p i h; simp at h
  | cons y ys ih =>
    intro p i h
    cases i with
    | zero =>
      have hys : ys ≠ [] := by
        intro he
        rw [he] at h
        simp at h
      simp only [ewmGo, List.getD_cons_succ, List.getD_cons_zero]
      rw [ewmGo_getD_zero a _ ys hys]
    | succ j =>
      have h2 : j + 1 < ys.length := by simpa using h
      simp only [ewmGo, List.getD_cons_succ]
      exact ih _ j h2

theorem ewm_getD_zero (a : ℚ) (l : List ℚ) (h : 0 < l.length) :
    (ewmAdjFalse a l).getD 0 0 = l.getD 0 0 := by
  cases l with
  | nil => simp at h
  | cons x xs => simp [ewmAdjFalse]

theorem ewm_getD_succ (a : ℚ) (l : List ℚ) (i : Nat) (h : i + 1 < l.length) :
    (ewmAdjFalse a l).getD (i + 1) 0 =
      a * l.getD (i + 1) 0 + (1 - a) * (ewmAdjFalse a l).getD i 0 := by
  cases l with
  | nil => simp at h
  | cons x xs =>
    cases i with
    | zero =>
      have hxs : xs ≠ [] := by
        intro he
        rw [he] at h
        simp at h
      simp only [ewmAdjFalse, List.getD_cons_succ, List.getD_cons_zero]
      rw [ewmGo_getD_zero a x xs hxs]
    | succ j =>
      simp only [ewmAdjFalse, List.getD_cons_succ]
      exact ewmGo_getD_succ a xs x j (by simpa using h)

/-- C5: for every non-empty resampled close series, the EMA_50 column computed
by the tool (the `ewm(span=50, adjust=False)` scan) equals the exponential
moving average with smoothing factor `α = 2/(50+1)`, seeded by the first
close: `EMA_0 = close_0` and `EMA_i = α close_i + (1-α) EMA_(i-1)`. -/
theorem ema_matches_spec_recurrence (close : List ℚ) (i : Nat)
    (hi : i < close.length) :
    (ewmAdjFalse emaAlpha close).getD i 0 = emaSpecRec close i := by
  induction i with
  | zero => simpa [emaSpecRec] using ewm_getD_zero emaAlpha close hi
  | succ j ih =>
    have hj : j < close.length := Nat.lt_of_succ_lt hi
    rw [ewm_getD_succ emaAlpha close j hi, ih hj]
    simp [emaSpecRec]

/-- Witness for C5 at a concrete three-element close series. -/
theorem ema_matches_spec_recurrence_witness :
    (ewmAdjFalse emaAlpha [(1 : ℚ), 2, 4]).getD 2 0 = emaSpecRec [(1 : ℚ), 2, 4] 2 :=
  ema_matches_spec_recurrence [(1 : ℚ), 2, 4] 2 (by decide)

theorem ewmGo_const (a c : ℚ) : ∀ m, ewmGo a c (List.replicate m c) = List.replicate m c := by
  intro m
  induction m with
  | zero => rfl
  | succ k ih =>
    have h : a * c + (1 - a) * c = c := by ring
    simp only [List.replicate_succ, ewmGo, h]
    rw [ih]

/-- C6: the EMA(50) of a constant close series `[c, ..., c]` of any length
equals `c` at every position (idempotence under constant input). -/
theorem ema_constant_fixed_point (c : ℚ) (n : Nat) :
    ewmAdjFalse emaAlpha (List.replicate n c) = List.replicate n c := by
  cases n with
  | zero => rfl
  | succ k =>
    simp only [List.replicate_succ, ewmAdjFalse]
    rw [ewmGo_const]

/-- C7: whenever the market-data provider returns zero bars, the tool returns
exactly the literal string `"Error: Could not fetch data."`, before any
resampling or indicator computation. -/
theorem empty_history_error_literal
    (provider : String → String → String → Except String (List Bar)) (q : String)
    (h : provider ticker fetchPeriod fetchInterval = .ok []) :
    XAUPriceFetchTool_run provider q = .err "Error: Could not fetch data." := by
  unfold XAUPriceFetchTool_run
  rw [h]
  rfl

/-- Witness for C7 at a concrete provider returning zero bars. -/
theorem empty_history_error_literal_witness :
    XAUPriceFetchTool_run providerEmpty "gold" = .err "Error: Could not fetch data." :=
  empty_history_error_literal providerEmpty "gold" rfl

/-- C8: whenever the search provider returns zero results, the news tool
returns a string containing "Assume Neutral" and containing no "NEWS TITLE"
records. -/
theorem no_results_neutral_sentinel (q : String)
    (searchF : String → Except String (List SearchResult))
    (h : searchF q = .ok []) :
    NewsSearchTool_run q searchF = "No news found in the last 24 hours. Assume Neutral." ∧
    strContains (NewsSearchTool_run q searchF) "Assume Neutral" = true ∧
    strContains (NewsSearchTool_run q searchF) "NEWS TITLE" = false := by
  have he : NewsSearchTool_run q searchF =
      "No news found in the last 24 hours. Assume Neutral." := by
    unfold NewsSearchTool_run
    rw [h]
    rfl
  refine ⟨he, ?_, ?_⟩ <;> rw [he] <;> decide

/-- Witness for C8 at a concrete search call returning zero results. -/
theorem no_results_neutral_sentinel_witness :
    NewsSearchTool_run "gold news" searchEmpty =
      "No news found in the last 24 hours. Assume Neutral." ∧
    strContains (NewsSearchTool_run "gold news" searchEmpty) "Assume Neutral" = true ∧
    strContains (NewsSearchTool_run "gold news" searchEmpty) "NEWS TITLE" = false :=
  no_results_neutral_sentinel "gold news" searchEmpty rfl

/-- C9: when the underlying provider call raises, each tool catches the
exception and returns a string in its place: the indicator tool the message
prefixed "Error processing data: ", the news tool the message prefixed
"Search Error: "; neither propagates the exception. -/
theorem exceptions_returned_as_strings
    (provider : String → String → String → Except String (List Bar))
    (searchF : String → Except String (List SearchResult)) (q e1 e2 : String)
    (hp : provider ticker fetchPeriod fetchInterval = .error e1)
    (hs : searchF q = .error e2) :
    XAUPriceFetchTool_run provider q = .err ("Error processing data: " ++ e1) ∧
    NewsSearchTool_run q searchF = "Search Error: " ++ e2 := by
  constructor
  · unfold XAUPriceFetchTool_run
    rw [hp]
  · unfold NewsSearchTool_run
    rw [hs]

/-- Witness for C9 at concrete raising providers. -/
theorem exceptions_returned_as_strings_witness :
    XAUPriceFetchTool_run providerRaise "gold" = .err ("Error processing data: " ++ "boom") ∧
    NewsSearchTool_run "gold" searchRaise = "Search Error: " ++ "net down" :=
  exceptions_returned_as_strings providerRaise searchRaise "gold" "boom" "net down" rfl rfl

/-- C10: the indicator tool ignores its query argument — for any two queries
and the same provider its output is identical — and the ticker, lookback
period and base interval it passes to the provider are the fixed constants
"GC=F", "1mo" and "1h". -/
theorem query_ignored_constants_fixed
    (provider : String → String → String → Except String (List Bar)) (q1 q2 : String) :
    XAUPriceFetchTool_run provider q1 = XAUPriceFetchTool_run provider q2 ∧
    ticker = "GC=F" ∧ fetchPeriod = "1mo" ∧ fetchInterval = "1h" :=
  ⟨rfl, rfl, rfl, rfl⟩

theorem seriesGain_length (close : List ℚ) : (seriesGain close).length = close.length := by
  simp [seriesGain, diff]

theorem seriesLoss_length (close : List ℚ) : (seriesLoss close).length = close.length := by
  simp [seriesLoss, diff]

theorem rsiList_getD (close : List ℚ) (i : Nat) (hi : i < close.length) :
    (rsiList close).getD i none =
      match gainAvgAt close i, lossAvgAt close i with
      | some g, some l =>
        if l = 0 then (if g = 0 then none else some 100)
        else some (100 - 100 / (1 + g / l))
      | _, _ => none := by
  unfold rsiList
  exact getD_map_range close.length i _ none hi

theorem rsiList_getD_some_some (close : List ℚ) (i : Nat) (gv lv : ℚ)
    (hi : i < close.length)
    (hg : gainAvgAt close i = some gv) (hl : lossAvgAt close i = some lv) :
    (rsiList close).getD i none =
      if lv = 0 then (if gv = 0 then none else some 100)
      else some (100 - 100 / (1 + gv / lv)) := by
  rw [rsiList_getD close i hi, hg, hl]

theorem gainAvgAt_def (close : List ℚ) (i : Nat) (h13 : 13 ≤ i) (hi : i < close.length) :
    gainAvgAt close i =
      some ((((List.range 14).map fun k => (seriesGain close).getD (i - k) 0).sum) / 14) := by
  unfold gainAvgAt rollingMean
  rw [getD_map_range _ i _ none (by rw [seriesGain_length]; exact hi)]
  rw [if_pos (by omega)]
  norm_num

theorem lossAvgAt_def (close : List ℚ) (i : Nat) (h13 : 13 ≤ i) (hi : i < close.length) :
    lossAvgAt close i =
      some ((((List.range 14).map fun k => (seriesLoss close).getD (i - k) 0).sum) / 14) := by
  unfold lossAvgAt rollingMean
  rw [getD_map_range _ i _ none (by rw [seriesLoss_length]; exact hi)]
  rw [if_pos (by omega)]
  norm_num

theorem diff_getElem? (close : List ℚ) (j : Nat) (hj : j < close.length) :
    (diff close)[j]? =
      some (if j = 0 then none else some (close.getD j 0 - close.getD (j - 1) 0)) := by
  unfold diff
  rw [List.getElem?_map, List.getElem?_range hj]
  rfl

theorem wherePos_some (d : ℚ) : wherePos (some d) = max d 0 := by
  show (if 0 < d then d else 0) = max d 0
  rcases le_or_lt d 0 with h | h
  · rw [if_neg (not_lt.mpr h), max_eq_right h]
  · rw [if_pos h, max_eq_left h.le]

theorem whereNeg_some (d : ℚ) : whereNeg (some d) = max (-d) 0 := by
  show (if d < 0 then -d else 0) = max (-d) 0
  rcases lt_or_le d 0 with h | h
  · rw [if_pos h, max_eq_left (by linarith)]
  · rw [if_neg (not_lt.mpr h), max_eq_right (by linarith)]

theorem seriesGain_getD_eq (close : List ℚ) (j : Nat) (h1 : 1 ≤ j) (hj : j < close.length) :
    (seriesGain close).getD j 0 = max (refDelta close j) 0 := by
  unfold seriesGain
  rw [List.getD_eq_getElem?_getD, List.getElem?_map, diff_getElem? close j hj,
    if_neg (by omega : ¬ j = 0)]
  simp [wherePos_some, refDelta]

theorem seriesLoss_getD_eq (close : List ℚ) (j : Nat) (h1 : 1 ≤ j) (hj : j < close.length) :
    (seriesLoss close).getD j 0 = max (-refDelta close j) 0 := by
  unfold seriesLoss
  rw [List.getD_eq_getElem?_getD, List.getElem?_map, diff_getElem? close j hj,
    if_neg (by omega : ¬ j = 0)]
  simp [whereNeg_some, refDelta]

theorem seriesGain_getD_nonneg (close : List ℚ) (j : Nat) :
    0 ≤ (seriesGain close).getD j 0 := by
  unfold seriesGain
  rw [List.getD_eq_getElem?_getD, List.getElem?_map]
  cases h : (diff close)[j]? with
  | none => simp
  | some o =>
    cases o with
    | none => simp [wherePos]
    | some d =>
      simp only [Option.map_some', Option.getD_some, wherePos_some]
      exact le_max_right d 0

theorem seriesLoss_getD_nonneg (close : List ℚ) (j : Nat) :
    0 ≤ (seriesLoss close).getD j 0 := by
  unfold seriesLoss
  rw [List.getD_eq_getElem?_getD, List.getElem?_map]
  cases h : (diff close)[j]? with
  | none => simp
  | some o =>
    cases o with
    | none => simp [whereNeg]
    | some d =>
      simp only [Option.map_some', Option.getD_some, whereNeg_some]
      exact le_max_right (-d) 0

theorem gainAvgAt_eq_ref (close : List ℚ) (i : Nat) (h14 : 14 ≤ i) (hi : i < close.length) :
    gainAvgAt close i = some (refGain close i) := by
  rw [gainAvgAt_def close i (by omega) hi]
  unfold refGain
  have hw : ((List.range 14).map fun k => (seriesGain close).getD (i - k) 0) =
      (List.range 14).map fun k => max (refDelta close (i - k)) 0 := by
    apply List.map_congr_left
    intro k hk
    have hk14 : k < 14 := List.mem_range.mp hk
    exact seriesGain_getD_eq close (i - k) (by omega) (by omega)
  rw [hw]

theorem lossAvgAt_eq_ref (close : List ℚ) (i : Nat) (h14 : 14 ≤ i) (hi : i < close.length) :
    lossAvgAt close i = some (refLoss close i) := by
  rw [lossAvgAt_def close i (by omega) hi]
  unfold refLoss
  have hw : ((List.range 14).map fun k => (seriesLoss close).getD (i - k) 0) =
      (List.range 14).map fun k => max (-refDelta close (i - k)) 0 := by
    apply List.map_congr_left
    intro k hk
    have hk14 : k < 14 := List.mem_range.mp hk
    exact seriesLoss_getD_eq close (i - k) (by omega) (by omega)
  rw [hw]

theorem gainAvgAt_nonneg (close : List ℚ) (i : Nat) (gv : ℚ) (hi : i < close.length)
    (hg : gainAvgAt close i = some gv) : 0 ≤ gv := by
  unfold gainAvgAt rollingMean at hg
  rw [getD_map_range _ i _ none (by rw [seriesGain_length]; exact hi)] at hg
  split_ifs at hg with h
  · cases hg
    apply div_nonneg ?_ (by norm_num)
    apply List.sum_nonneg
    intro x hx
    obtain ⟨k, hk, rfl⟩ := List.mem_map.mp hx
    exact seriesGain_getD_nonneg close (i - k)

/-- C3: for every resampled close series and every index `i ≥ 14` (at least
14 prior per-step deltas) with strictly positive trailing average loss, the
RSI computed by the tool equals the reference formula of the spec:
`gain` and `loss` the trailing 14-period means of the clipped deltas,
`RS = gain/loss`, `RSI = 100 - 100/(1+RS)`. -/
theorem rsi_matches_reference (close : List ℚ) (i : Nat)
    (h14 : 14 ≤ i) (hi : i < close.length) (hl : 0 < refLoss close i) :
    (rsiList close).getD i none = some (refRSI close i) := by
  rw [rsiList_getD_some_some close i (refGain close i) (refLoss close i) hi
    (gainAvgAt_eq_ref close i h14 hi) (lossAvgAt_eq_ref close i h14 hi)]
  rw [if_neg (ne_of_gt hl)]
  rfl

theorem range14_eq : List.range 14 = [0, 1, 2, 3, 4, 5, 6, 7, 8, 9, 10, 11, 12, 13] := by
  decide

theorem range15_eq : List.range 15 = [0, 1, 2, 3, 4, 5, 6, 7, 8, 9, 10, 11, 12, 13, 14] := by
  decide

/-- Witness for C3 at the concrete alternating close series. -/
theorem rsi_matches_reference_witness :
    0 < refLoss cWave 14 ∧ (rsiList cWave).getD 14 none = some (refRSI cWave 14) :=
  ⟨by norm_num [refLoss, refDelta, range14_eq, cWave],
   rsi_matches_reference cWave 14 (by norm_num) (by norm_num [cWave])
     (by norm_num [refLoss, refDelta, range14_eq, cWave])⟩

/-- C4: whenever the trailing 14-period average loss is strictly positive the
tool's RSI is defined and lies in `[0, 100]`; and for a close series that is
strictly increasing over the trailing 14 periods the tool's RSI equals 100
exactly (the float `gain/0 = +inf` saturation). -/
theorem rsi_bounded_and_saturating (close : List ℚ) (i : Nat) (gv lv : ℚ)
    (hi : i < close.length)
    (hg : gainAvgAt close i = some gv) (hl : lossAvgAt close i = some lv) :
    (0 < lv →
      (rsiList close).getD i none = some (100 - 100 / (1 + gv / lv)) ∧
      0 ≤ 100 - 100 / (1 + gv / lv) ∧ 100 - 100 / (1 + gv / lv) ≤ 100) ∧
    (14 ≤ i → (∀ k < 14, close.getD (i - k - 1) 0 < close.getD (i - k) 0) →
      (rsiList close).getD i none = some 100) := by
  constructor
  · intro hlv
    have hgv : 0 ≤ gv := gainAvgAt_nonneg close i gv hi hg
    have hrs : 0 ≤ gv / lv := div_nonneg hgv hlv.le
    have h1 : (0 : ℚ) < 1 + gv / lv := by linarith
    have hdiv_pos : 0 < 100 / (1 + gv / lv) := by positivity
    have hdiv_le : 100 / (1 + gv / lv) ≤ 100 := div_le_self (by norm_num) (by linarith)
    refine ⟨?_, by linarith, by linarith⟩
    rw [rsiList_getD_some_some close i gv lv hi hg hl, if_neg (ne_of_gt hlv)]
  · intro h14 hmon
    have hleq : lossAvgAt close i = some (refLoss close i) := lossAvgAt_eq_ref close i h14 hi
    have hgeq : gainAvgAt close i = some (refGain close i) := gainAvgAt_eq_ref close i h14 hi
    rw [hl] at hleq
    rw [hg] at hgeq
    have hlv0 : lv = refLoss close i := Option.some_inj.mp hleq
    have hgv0 : gv = refGain close i := Option.some_inj.mp hgeq
    have hrl : refLoss close i = 0 := by
      have hsum : ((List.range 14).map fun k => max (-refDelta close (i - k)) 0).sum = 0 := by
        apply List.sum_eq_zero
        intro x hx
        obtain ⟨k, hk, rfl⟩ := List.mem_map.mp hx
        have hk14 : k < 14 := List.mem_range.mp hk
        have hd : 0 < refDelta close (i - k) := by
          have hm := hmon k hk14
          unfold refDelta
          linarith
        rw [max_eq_right (by linarith : -refDelta close (i - k) ≤ 0)]
      unfold refLoss
      rw [hsum]
      norm_num
    have hrg : 0 < refGain close i := by
      have hnn : ∀ x ∈ (List.range 14).map fun k => max (refDelta close (i - k)) 0,
          0 ≤ x := by
        intro x hx
        obtain ⟨k, hk, rfl⟩ := List.mem_map.mp hx
        exact le_max_right _ 0
      have hmem : max (refDelta close (i - 0)) 0 ∈
          (List.range 14).map fun k => max (refDelta close (i - k)) 0 :=
        List.mem_map.mpr ⟨0, List.mem_range.mpr (by norm_num), rfl⟩
      have hle := List.single_le_sum hnn _ hmem
      have hd0 : 0 < refDelta close (i - 0) := by
        have hm := hmon 0 (by norm_num)
        unfold refDelta
        linarith
      have hmx : 0 < max (refDelta close (i - 0)) 0 := lt_max_iff.mpr (Or.inl hd0)
      unfold refGain
      have : (0 : ℚ) < ((List.range 14).map fun k => max (refDelta close (i - k)) 0).sum := by
        linarith
      positivity
    rw [rsiList_getD_some_some close i gv lv hi hg hl,
      if_pos (by rw [hlv0, hrl]), if_neg (by rw [hgv0]; exact ne_of_gt hrg)]

/-- Witness for C4: the alternating series has positive trailing loss at
index 14 (RSI 50), the strictly increasing one saturates to 100 there. -/
theorem rsi_bounded_and_saturating_witness :
    (0 : ℚ) < 1 / 2 ∧
    ((rsiList cWave).getD 14 none = some (100 - 100 / (1 + (1 / 2 : ℚ) / (1 / 2))) ∧
      0 ≤ 100 - 100 / (1 + (1 / 2 : ℚ) / (1 / 2)) ∧
      100 - 100 / (1 + (1 / 2 : ℚ) / (1 / 2)) ≤ 100) ∧
    (rsiList cInc).getD 14 none = some 100 :=
  ⟨by norm_num,
   (rsi_bounded_and_saturating cWave 14 (1 / 2) (1 / 2) (by norm_num [cWave])
     (by
       rw [gainAvgAt_def cWave 14 (by norm_num) (by norm_num [cWave])]
       norm_num [range14_eq, range15_eq, seriesGain, diff, wherePos, cWave])
     (by
       rw [lossAvgAt_def cWave 14 (by norm_num) (by norm_num [cWave])]
       norm_num [range14_eq, range15_eq, seriesLoss, diff, whereNeg, cWave])).1
     (by norm_num),
   (rsi_bounded_and_saturating cInc 14 1 0 (by norm_num [cInc])
     (by
       rw [gainAvgAt_def cInc 14 (by norm_num) (by norm_num [cInc])]
       norm_num [range14_eq, range15_eq, seriesGain, diff, wherePos, cInc])
     (by
       rw [lossAvgAt_def cInc 14 (by norm_num) (by norm_num [cInc])]
       norm_num [range14_eq, range15_eq, seriesLoss, diff, whereNeg, cInc])).2
     (by norm_num)
     (by
       intro k hk
       interval_cases k <;> norm_num [cInc])⟩

theorem groupRuns_ne_nil : ∀ (l g : List Bar), g ∈ groupRuns l → g ≠ [] := by
  intro l
  induction l with
  | nil =>
    intro g hgm
    simp [groupRuns] at hgm
  | cons b bs ih =>
    intro g hgm
    simp only [groupRuns] at hgm
    split at hgm
    · simp at hgm
      rw [hgm]
      exact List.cons_ne_nil b []
    · rename_i gs heq
      have hmem : ([] : List Bar) ∈ groupRuns bs := by
        rw [heq]
        exact List.mem_cons_self _ _
      exact absurd rfl (ih [] hmem)
    · rename_i b2 g2 gs heq
      split at hgm
      · rcases List.mem_cons.mp hgm with h | h
        · rw [h]
          exact List.cons_ne_nil _ _
        · exact ih g (by rw [heq]; exact List.mem_cons_of_mem _ h)
      · rcases List.mem_cons.mp hgm with h | h
        · rw [h]
          exact List.cons_ne_nil _ _
        · rcases List.mem_cons.mp h with h2 | h2
          · rw [h2]
            exact List.cons_ne_nil _ _
          · exact ih g (by rw [heq]; exact List.mem_cons_of_mem _ h2)

theorem head?_filterMap_first {α β : Type} (f : α → Option β) (l : List α) (a : α) (b : β)
    (h : l.head? = some a) (hf : f a = some b) : (l.filterMap f).head? = some b := by
  cases l with
  | nil => simp at h
  | cons x xs =>
    simp only [List.head?_cons, Option.some_inj] at h
    rw [List.filterMap_cons, h, hf]
    rfl

theorem getLast?_filterMap_last {α β : Type} (f : α → Option β) :
    ∀ (l : List α) (a : α) (b : β), l.getLast? = some a → f a = some b →
      (l.filterMap f).getLast? = some b := by
  intro l
  induction l with
  | nil => intro a b h hf; simp at h
  | cons x xs ih =>
    intro a b h hf
    cases xs with
    | nil =>
      simp only [List.getLast?_singleton, Option.some_inj] at h
      rw [List.filterMap_cons, h, hf]
      simp
    | cons y ys =>
      have h2 : (y :: ys).getLast? = some a := by
        rw [← List.getLast?_cons_cons]
        exact h
      have hrec := ih a b h2 hf
      rcases hx : f x with _ | v
      · rw [List.filterMap_cons, hx]
        exact hrec
      · rw [List.filterMap_cons, hx]
        show (v :: List.filterMap f (y :: ys)).getLast? = some b
        cases ht : List.filterMap f (y :: ys) with
        | nil =>
          rw [ht] at hrec
          simp at hrec
        | cons z zs =>
          rw [ht] at hrec
          rw [List.getLast?_cons_cons]
          exact hrec

theorem max?_spec (l : List ℚ) (m : ℚ) (h : l.max? = some m) : m ∈ l ∧ ∀ x ∈ l, x ≤ m :=
  (@List.max?_eq_some_iff ℚ m _ _ ⟨fun h1 h2 => le_antisymm h1 h2⟩
    le_refl max_choice (fun _ _ _ => max_le_iff) l).mp h

theorem min?_spec (l : List ℚ) (m : ℚ) (h : l.min? = some m) : m ∈ l ∧ ∀ x ∈ l, m ≤ x :=
  (@List.min?_eq_some_iff ℚ m _ _ ⟨fun h1 h2 => le_antisymm h1 h2⟩
    le_refl min_choice (fun _ _ _ => le_min_iff) l).mp h

theorem aggGroup_eq (g : List Bar) (rb : RBar) (h : aggGroup g = some rb) :
    (g.filterMap Bar.Open).head? = some rb.Open ∧
    (g.filterMap Bar.High).max? = some rb.High ∧
    (g.filterMap Bar.Low).min? = some rb.Low ∧
    (g.filterMap Bar.Close).getLast? = some rb.Close := by
  unfold aggGroup at h
  split at h
  · rename_i o hh ll cc ho hhi hlo hcl
    cases h
    exact ⟨ho, hhi, hlo, hcl⟩
  · exact absurd h (by simp)

/-- C2: for every bar sequence and every 4-hour window with at least one
contributing observation whose bars carry complete OHLC fields, the resampled
bar satisfies open = first observation's open, high = max high, low = min
low, close = last observation's close, and it appears in the resampled
series; the resampled series is exactly the per-window aggregation with
incomplete windows dropped (`filterMap`), and no empty window is ever
aggregated or zero-filled. -/
theorem resample4h_window_agg (bars g : List Bar) (rb : RBar) (b0 bl : Bar)
    (hg : g ∈ groupRuns bars)
    (hc : ∀ b ∈ g, b.Open ≠ none ∧ b.High ≠ none ∧ b.Low ≠ none ∧ b.Close ≠ none)
    (h0 : g.head? = some b0) (h1 : g.getLast? = some bl)
    (hrb : aggGroup g = some rb) :
    rb ∈ resample4h bars ∧
    b0.Open = some rb.Open ∧
    bl.Close = some rb.Close ∧
    some rb.High ∈ g.map Bar.High ∧
    ((g.filterMap Bar.High).all fun x => decide (x ≤ rb.High)) = true ∧
    some rb.Low ∈ g.map Bar.Low ∧
    ((g.filterMap Bar.Low).all fun x => decide (rb.Low ≤ x)) = true ∧
    resample4h bars = (groupRuns bars).filterMap aggGroup ∧
    [] ∉ groupRuns bars := by
  obtain ⟨ho, hhi, hlo, hcl⟩ := aggGroup_eq g rb hrb
  have hb0m : b0 ∈ g := by
    cases g with
    | nil => simp at h0
    | cons x xs =>
      simp only [List.head?_cons, Option.some_inj] at h0
      rw [← h0]
      exact List.mem_cons_self _ _
  have hblm : bl ∈ g := by
    cases g with
    | nil => simp at h1
    | cons x xs =>
      have hne : (x :: xs) ≠ [] := List.cons_ne_nil x xs
      rw [List.getLast?_eq_getLast (x :: xs) hne] at h1
      rw [← Option.some_inj.mp h1]
      exact List.getLast_mem hne
  refine ⟨?_, ?_, ?_, ?_, ?_, ?_, ?_, rfl, ?_⟩
  · exact List.mem_filterMap.mpr ⟨g, hg, hrb⟩
  · obtain ⟨o, hoeq⟩ := Option.ne_none_iff_exists'.mp (hc b0 hb0m).1
    have := head?_filterMap_first Bar.Open g b0 o h0 hoeq
    rw [this] at ho
    rw [hoeq, Option.some_inj.mp ho]
  · obtain ⟨c, hceq⟩ := Option.ne_none_iff_exists'.mp (hc bl hblm).2.2.2
    have := getLast?_filterMap_last Bar.Close g bl c h1 hceq
    rw [this] at hcl
    rw [hceq, Option.some_inj.mp hcl]
  · obtain ⟨hm, _⟩ := max?_spec _ _ hhi
    obtain ⟨b, hbm, hbe⟩ := List.mem_filterMap.mp hm
    exact List.mem_map.mpr ⟨b, hbm, by rw [hbe]⟩
  · obtain ⟨_, hub⟩ := max?_spec _ _ hhi
    refine List.all_eq_true.mpr ?_
    intro x hx
    exact decide_eq_true (hub x hx)
  · obtain ⟨hm, _⟩ := min?_spec _ _ hlo
    obtain ⟨b, hbm, hbe⟩ := List.mem_filterMap.mp hm
    exact List.mem_map.mpr ⟨b, hbm, by rw [hbe]⟩
  · obtain ⟨_, hlb⟩ := min?_spec _ _ hlo
    refine List.all_eq_true.mpr ?_
    intro x hx
    exact decide_eq_true (hlb x hx)
  · intro hmem
    exact absurd rfl (groupRuns_ne_nil bars [] hmem)

/-- Witness for C2 at the concrete two-bar single-window history. -/
theorem resample4h_window_agg_witness :
    rbar2 ∈ resample4h bars2 ∧
    bar1.Open = some rbar2.Open ∧
    bar2.Close = some rbar2.Close ∧
    some rbar2.High ∈ bars2.map Bar.High ∧
    ((bars2.filterMap Bar.High).all fun x => decide (x ≤ rbar2.High)) = true ∧
    some rbar2.Low ∈ bars2.map Bar.Low ∧
    ((bars2.filterMap Bar.Low).all fun x => decide (rbar2.Low ≤ x)) = true ∧
    resample4h bars2 = (groupRuns bars2).filterMap aggGroup ∧
    [] ∉ groupRuns bars2 :=
  resample4h_window_agg bars2 bars2 rbar2 bar1 bar2
    (by simp [groupRuns, bars2, bar1, bar2])
    (by simp [bars2, bar1, bar2])
    (by simp [bars2])
    (by simp [bars2])
    (by norm_num [aggGroup, bars2, bar1, bar2, rbar2, List.max?, List.min?,
      List.filterMap_cons, List.foldl, max_def, min_def])

theorem isRounded2_round2 (q : ℚ) : isRounded2 (round2 q) = true := by
  have h : round2 q * 100 = ((round (q * 100) : ℤ) : ℚ) := by
    unfold round2
    rw [div_mul_cancel₀ _ (by norm_num : (100 : ℚ) ≠ 0)]
  unfold isRounded2
  rw [h, Rat.den_intCast]
  rfl

theorem rowRounded_roundRow (r : OutRow) : rowRounded (roundRow r) = true := by
  cases r with
  | mk c rsi e =>
    cases rsi with
    | none => simp [rowRounded, roundRow, isRounded2_round2]
    | some x => simp [rowRounded, roundRow, isRounded2_round2]

theorem roundRow_RSI_isSome (r : OutRow) : (roundRow r).RSI.isSome = r.RSI.isSome := by
  cases h : r.RSI <;> simp [roundRow, h]

theorem outRows_length (close : List ℚ) : (outRows close).length = close.length := by
  simp [outRows]

theorem outRows_getElem (close : List ℚ) (m : Nat) (hm : m < (outRows close).length) :
    (outRows close)[m] =
      { Close := close.getD m 0, RSI := (rsiList close).getD m none,
        EMA_50 := (ewmAdjFalse emaAlpha close).getD m 0 } := by
  unfold outRows
  rw [List.getElem_map, List.getElem_range]

theorem rsiList_getD_isSome (close : List ℚ) (i : Nat) (h13 : 13 ≤ i)
    (hi : i < close.length)
    (hnz : ¬(gainAvgAt close i = some 0 ∧ lossAvgAt close i = some 0)) :
    ((rsiList close).getD i none).isSome = true := by
  have hgd := gainAvgAt_def close i h13 hi
  have hld := lossAvgAt_def close i h13 hi
  rw [rsiList_getD_some_some close i _ _ hi hgd hld]
  by_cases hL : (((List.range 14).map fun k => (seriesLoss close).getD (i - k) 0).sum) / 14 = 0
  · rw [if_pos hL]
    have hG : ¬ (((List.range 14).map fun k => (seriesGain close).getD (i - k) 0).sum) / 14 = 0 := by
      intro hG0
      exact hnz ⟨by rw [hgd, hG0], by rw [hld, hL]⟩
    rw [if_neg hG]
    rfl
  · rw [if_neg hL]
    rfl

theorem gainAvgAt_pos (close : List ℚ) (i : Nat) (gv : ℚ) (h13 : 13 ≤ i)
    (hi : i < close.length) (hd : close.getD (i - 1) 0 < close.getD i 0)
    (hg : gainAvgAt close i = some gv) : 0 < gv := by
  rw [gainAvgAt_def close i h13 hi] at hg
  have hgv : gv = (((List.range 14).map fun k => (seriesGain close).getD (i - k) 0).sum) / 14 :=
    (Option.some_inj.mp hg).symm
  have hnn : ∀ x ∈ (List.range 14).map fun k => (seriesGain close).getD (i - k) 0, 0 ≤ x := by
    intro x hx
    obtain ⟨k, hk, rfl⟩ := List.mem_map.mp hx
    exact seriesGain_getD_nonneg close (i - k)
  have hmem : (seriesGain close).getD (i - 0) 0 ∈
      (List.range 14).map fun k => (seriesGain close).getD (i - k) 0 :=
    List.mem_map.mpr ⟨0, List.mem_range.mpr (by norm_num), rfl⟩
  have hle := List.single_le_sum hnn _ hmem
  have hterm : 0 < (seriesGain close).getD (i - 0) 0 := by
    rw [Nat.sub_zero, seriesGain_getD_eq close i (by omega) hi]
    have hdp : 0 < refDelta close i := by
      unfold refDelta
      linarith
    exact lt_max_iff.mpr (Or.inl hdp)
  rw [hgv]
  exact div_pos (lt_of_lt_of_le hterm hle) (by norm_num)

/-- C1 (amended): the output table has at most 12 rows and every present
numeric field is rounded to two decimals; but warm-up rows with undefined RSI
are not excluded — they appear whenever the resampled series is short — and
every output row is complete provided the resampled series has at least 25
rows and no trailing window past warm-up has both average gain and average
loss zero (the flat-window NaN case). -/
theorem indicator_rows_bounded_rounded (history : List Bar) :
    (indicatorRows history).length ≤ 12 ∧
    (indicatorRows history).all rowRounded = true ∧
    (25 ≤ (resample4h history).length →
      (∀ i < (resample4h history).length, 13 ≤ i →
        ¬(gainAvgAt ((resample4h history).map RBar.Close) i = some 0 ∧
          lossAvgAt ((resample4h history).map RBar.Close) i = some 0)) →
      ((indicatorRows history).all fun r => r.RSI.isSome) = true) := by
  refine ⟨?_, ?_, ?_⟩
  · simp only [indicatorRows, List.length_map, List.length_drop]
    omega
  · rw [List.all_eq_true]
    intro r hr
    simp only [indicatorRows] at hr
    obtain ⟨r2, hr2m, rfl⟩ := List.mem_map.mp hr
    exact rowRounded_roundRow r2
  · intro h25 hnz
    rw [List.all_eq_true]
    intro r hr
    simp only [indicatorRows] at hr
    obtain ⟨r2, hr2m, rfl⟩ := List.mem_map.mp hr
    rw [List.mem_drop_iff_getElem] at hr2m
    obtain ⟨j, hj, hje⟩ := hr2m
    have hn : ((resample4h history).map RBar.Close).length = (resample4h history).length :=
      List.length_map _ _
    have hol : (outRows ((resample4h history).map RBar.Close)).length =
        (resample4h history).length := by
      rw [outRows_length, hn]
    rw [outRows_getElem _ _ (by omega)] at hje
    rw [roundRow_RSI_isSome, ← hje]
    exact rsiList_getD_isSome _ _ (by omega) (by omega)
      (hnz _ (by omega) (by omega))

/-- Counterexample to C1 as stated: a successful run over a single complete
bar produces a table whose only row has an undefined RSI — the warm-up row is
not excluded from the final output. -/
theorem indicator_rows_warmup_included :
    XAUPriceFetchTool_run provider1 "latest gold price" = .table (indicatorRows history1) ∧
    (indicatorRows history1).length = 1 ∧
    ((indicatorRows history1).all fun r => r.RSI.isSome) = false := by
  refine ⟨rfl, ?_, ?_⟩
  · simp [indicatorRows, outRows, history1, resample4h, groupRuns, aggGroup]
  · simp [indicatorRows, outRows, history1, resample4h, groupRuns, aggGroup, rsiList,
      gainAvgAt, lossAvgAt, rollingMean, seriesGain, seriesLoss, diff, roundRow]

theorem range25_eq :
    List.range 25 = [0, 1, 2, 3, 4, 5, 6, 7, 8, 9, 10, 11, 12, 13, 14, 15, 16, 17,
      18, 19, 20, 21, 22, 23, 24] := by
  decide

/-- Witness for C1 (amended) at the concrete 25-window history: its resampled
series has 25 rows (strictly increasing closes, so no flat window), and every
row of the final table carries a defined RSI. -/
theorem indicator_rows_bounded_rounded_witness :
    25 ≤ (resample4h history25).length ∧
    ((indicatorRows history25).all fun r => r.RSI.isSome) = true := by
  have hcl : (resample4h history25).map RBar.Close =
      [1, 2, 3, 4, 5, 6, 7, 8, 9, 10, 11, 12, 13, 14, 15, 16, 17, 18, 19, 20, 21, 22,
        23, 24, 25] := by
    norm_num [history25, resample4h, groupRuns, aggGroup, range25_eq, List.filterMap_cons,
      List.max?, List.min?, List.foldl]
  have hlen : (resample4h history25).length = 25 := by
    have hc := congrArg List.length hcl
    simpa using hc
  refine ⟨by omega, ?_⟩
  apply (indicator_rows_bounded_rounded history25).2.2 (by omega)
  intro i hi h13
  rw [hlen] at hi
  rw [hcl]
  rintro ⟨hg0, -⟩
  have hmono : ([1, 2, 3, 4, 5, 6, 7, 8, 9, 10, 11, 12, 13, 14, 15, 16, 17, 18, 19, 20,
      21, 22, 23, 24, 25] : List ℚ).getD (i - 1) 0 <
      ([1, 2, 3, 4, 5, 6, 7, 8, 9, 10, 11, 12, 13, 14, 15, 16, 17, 18, 19, 20, 21, 22,
        23, 24, 25] : List ℚ).getD i 0 := by
    interval_cases i <;> norm_num
  have hpos := gainAvgAt_pos _ i 0 h13 (by simpa using hi) hmono hg0
  exact absurd hpos (by norm_num)
